import Mathlib

/-!
Shallow embedding of the rockpi-penta daemon core
(`usr/bin/rockpi-penta/misc.py` and `usr/bin/rockpi-penta/fan.py`):
the temperature-to-duty-cycle policy, the PWM write path, the
effective-temperature computation, the per-device IO rate calculator,
the disk-temperature aggregation, and the button-gesture recognizer.
Machine floats are modelled as rationals; shell and GPIO reads are
inputs to the embedded functions; fallible code returns `Except`.
-/

/-- Fan configuration as read by `read_conf` (section `fan` of the conf
file): the four temperature thresholds and the linear-mode flag. -/
structure FanConf where
  lv0 : ℚ
  lv1 : ℚ
  lv2 : ℚ
  lv3 : ℚ
  linear : Bool
deriving DecidableEq

/-- Embeds `lv2dc = OrderedDict({'lv3': 100, 'lv2': 75, 'lv1': 50, 'lv0': 25})`
from `misc.py`, keeping the iteration order of the ordered dict. -/
def lv2dc : List (String × ℚ) := [("lv3", 100), ("lv2", 75), ("lv1", 50), ("lv0", 25)]

/-- Embeds the lookup `conf['fan'][lv]` for the four level keys. -/
def lvThreshold (c : FanConf) : String → ℚ
  | "lv0" => c.lv0
  | "lv1" => c.lv1
  | "lv2" => c.lv2
  | _ => c.lv3

/-- Embeds the loop `for lv, dc in lv2dc.items(): if temp >= conf['fan'][lv]:
return dc` in `fan_temp2dc`: the first level whose threshold the temperature
meets or exceeds wins; `none` means the loop fell through. -/
def scanLevels (c : FanConf) (temp : ℚ) : List (String × ℚ) → Option ℚ
  | [] => none
  | (lv, dc) :: rest => if lvThreshold c lv ≤ temp then some dc else scanLevels c temp rest

/-- Embeds `fan_temp2dc(temp)` from `misc.py`: in linear mode, a clamped
interpolation between (lv0, 25) and (lv3, 100) with the degenerate-denominator
fallback slope 1.0; otherwise the stepped scan with fallthrough value 10.
The result is a fan-speed percentage. -/
def fan_temp2dc (c : FanConf) (temp : ℚ) : ℚ :=
  if c.linear then
    let lv0_percent : ℚ := 25
    let lv3_percent : ℚ := 100
    let base_temp := c.lv0
    let denominator := c.lv3 - base_temp
    let slope := if 0 < denominator then (lv3_percent - lv0_percent) / denominator else 1
    min lv3_percent (max (slope * (temp - base_temp) + lv0_percent) lv0_percent)
  else
    (scanLevels c temp lv2dc).getD 10

/-- Embeds `get_dc` from `fan.py`: when the fan-enabled flag is off the
returned percentage is 0.1 (the comment notes 0.0 can make the fan run
faster); otherwise the percentage comes from `fan_temp2dc`. The 5 s
recomputation cache only replays values of the same function, so it is
not modelled separately. -/
def get_dc (c : FanConf) (running : Bool) (temp : ℚ) : ℚ :=
  if running then fan_temp2dc c temp else 1 / 10

/-- Embeds the write in `change_dc` from `fan.py`: the value handed to
`pin13.write` is the PWM off-ratio `1 - (dc / 100)` built from the
percentage `dc`. -/
def change_dc_value (dc : ℚ) : ℚ := 1 - dc / 100

/-- The duty fraction the system writes for a given wall-clock instant,
configuration, fan-enabled flag and temperature. The clock parameter is
unused because nothing in `fan_temp2dc`, `get_dc` or `change_dc` reads
the time of day. -/
def dutyAt (_clock : ℚ) (c : FanConf) (running : Bool) (temp : ℚ) : ℚ :=
  change_dc_value (get_dc c running temp)

/-- Modelled from the spec: membership of an hour-of-day in the quiet
window, wrap-around allowed. No quiet-window code exists anywhere in the
source; this predicate only renders the window named by the claims. -/
def in_quiet_window (start finish now : ℚ) : Bool :=
  if start ≤ finish then decide (start ≤ now) && decide (now < finish)
  else decide (start ≤ now) || decide (now < finish)

/-- The default fan configuration from `read_conf` fallbacks:
lv0=35, lv1=40, lv2=45, lv3=50, linear off. -/
def defaultFanConf : FanConf := ⟨35, 40, 45, 50, false⟩

/-- Embeds the Fahrenheit conversion `t * 1.8 + 32` applied when the
`oled f-temp` flag is set, as in `read_cpu_temp` and `get_disk_temp_info`. -/
def temp_convert (fah : Bool) (t : ℚ) : ℚ := if fah then t * 9 / 5 + 32 else t

/-- Embeds `read_cpu_temp` from `fan.py`: the converted CPU reading, a disk
component that is the stored average when `fan temp_disks` is set and 0.0
otherwise, combined with `max`. -/
def read_cpu_temp (fah cpu_and_disk : Bool) (t_raw t_disk_avg : ℚ) : ℚ :=
  let t_cpu := temp_convert fah t_raw
  let t_disk := if cpu_and_disk then t_disk_avg else 0
  max t_cpu t_disk

/-- One raw cumulative IO sample: receive counter, transmit counter and
the `time.time()` stamp, as built by `get_interface_io` / `get_disk_io`. -/
structure IoSample where
  rx : ℚ
  tx : ℚ
  time : ℚ
deriving DecidableEq

/-- A pair of derived transfer rates in MB/s. -/
structure IoRate where
  rx : ℚ
  tx : ℚ
deriving DecidableEq

/-- Embeds `get_interface_io_rate` from `misc.py` for one device: with no
stored baseline the rate is 0 and the sample becomes the baseline; with a
baseline the code divides the counter deltas by the raw duration
unconditionally — a zero duration raises `ZeroDivisionError` before any
state is written (modelled as `Except.error`), any other duration
(negative included) produces `delta / duration / 1024 / 1024` and the
baseline is replaced by the new sample. -/
def get_interface_io_rate (old : Option IoSample) (new : IoSample) :
    Except Unit (IoRate × IoSample) :=
  match old with
  | some o =>
      if new.time - o.time = 0 then Except.error ()
      else Except.ok
        ({ rx := (new.rx - o.rx) / (new.time - o.time) / 1024 / 1024,
           tx := (new.tx - o.tx) / (new.time - o.time) / 1024 / 1024 }, new)
  | none => Except.ok ({ rx := 0, tx := 0 }, new)

/-- Embeds `get_disk_io_rate` from `misc.py` for one disk with its cached
sector size: identical baseline handling, with the sector-count delta
scaled by `/ (1024 / sector_size) / 1024`. -/
def get_disk_io_rate (sector_size : ℚ) (old : Option IoSample) (new : IoSample) :
    Except Unit (IoRate × IoSample) :=
  match old with
  | some o =>
      if new.time - o.time = 0 then Except.error ()
      else Except.ok
        ({ rx := (new.rx - o.rx) / (new.time - o.time) / (1024 / sector_size) / 1024,
           tx := (new.tx - o.tx) / (new.time - o.time) / (1024 / sector_size) / 1024 }, new)
  | none => Except.ok ({ rx := 0, tx := 0 }, new)

/-- Embeds Python `str.split` with separator `"\n"` on the raw `lsblk`
output, character by character: splitting the empty string yields one
empty field, never an empty list. -/
def splitLines : List Char → List (List Char)
  | [] => [[]]
  | c :: rest =>
      if c = '\n' then [] :: splitLines rest
      else
        match splitLines rest with
        | [] => [[c]]
        | h :: t => (c :: h) :: t

/-- Lexicographic order on character lists, embedding Python string
comparison for `sorted`. -/
def strLe : List Char → List Char → Bool
  | [], _ => true
  | _ :: _, [] => false
  | a :: as, b :: bs => if a < b then true else if a = b then strLe as bs else false

/-- Insertion step of a structural insertion sort. -/
def insertSorted (x : List Char) : List (List Char) → List (List Char)
  | [] => [x]
  | y :: ys => if strLe x y then x :: y :: ys else y :: insertSorted x ys

/-- Embeds Python `sorted` on the split disk names (the sort order is
irrelevant to every sum and count below, only the multiset matters). -/
def sortNames (l : List (List Char)) : List (List Char) :=
  l.foldr insertSorted []

/-- One value of the `disks_temp` dict built by `get_disk_temp_info`:
a formatted readable temperature, the `'----'` unreadable marker, or the
`''` entry recorded for the empty disk name when no sd drive exists. -/
inductive DiskEntry where
  | temp (t : ℚ)
  | unreadable
  | blank
deriving DecidableEq

/-- Python dict assignment `disks_temp[k] = v` on an association list:
replace the value of an existing key, otherwise append the binding. -/
def dictInsert (m : List (List Char × DiskEntry)) (k : List Char) (v : DiskEntry) :
    List (List Char × DiskEntry) :=
  if m.any (fun p => p.1 = k) then m.map (fun p => if p.1 = k then (k, v) else p)
  else m ++ [(k, v)]

/-- One iteration of the `for disk in disks` loop in `get_disk_temp_info`,
carrying the running `disk_temp_average` sum and the `disks_temp` dict.
`read` is the `smartctl` query: `some t` when the output parses as a float,
`none` when the `float()` conversion raises. -/
def diskTempStep (read : List Char → Option ℚ) (fah : Bool)
    (acc : ℚ × List (List Char × DiskEntry)) (disk : List Char) :
    ℚ × List (List Char × DiskEntry) :=
  if disk ≠ [] then
    match read disk with
    | some t =>
        let t' := temp_convert fah t
        (acc.1 + t', dictInsert acc.2 disk (DiskEntry.temp t'))
    | none => (acc.1, dictInsert acc.2 disk DiskEntry.unreadable)
  else (acc.1, dictInsert acc.2 [] DiskEntry.blank)

/-- The sum accumulator and `disks_temp` dict after the whole loop of
`get_disk_temp_info`, starting from `disk_temp_average = 0.0` and an
empty dict. -/
def get_disk_temp_info (read : List Char → Option ℚ) (fah : Bool)
    (disks : List (List Char)) : ℚ × List (List Char × DiskEntry) :=
  disks.foldl (diskTempStep read fah) (0, [])

/-- The disk list of `get_disk_temp_info`: the `lsblk` output split on
newlines and sorted. -/
def diskNames (out : List Char) : List (List Char) :=
  sortNames (splitLines out)

/-- The divisor `len(disks_temp)` of the final average. -/
def diskTempCount (read : List Char → Option ℚ) (fah : Bool) (out : List Char) : ℕ :=
  (get_disk_temp_info read fah (diskNames out)).2.length

/-- The value stored into `conf['disk_temp_average']`:
`disk_temp_average /= len(disks_temp)` after the loop. -/
def disk_temp_average (read : List Char → Option ℚ) (fah : Bool) (out : List Char) : ℚ :=
  (get_disk_temp_info read fah (diskNames out)).1 / (diskTempCount read fah out : ℚ)

/-- The readable temperatures among the processed disk names, in loop
order: non-empty names whose query parses, after unit conversion. -/
def readableTemps (read : List Char → Option ℚ) (fah : Bool)
    (disks : List (List Char)) : List ℚ :=
  disks.filterMap (fun d => if d = [] then none else (read d).map (temp_convert fah))

/-- Stated from the spec sentence for comparison: an aggregate average in
which unreadable disks contribute neither to the sum nor to the divisor. -/
def spec_readable_average (read : List Char → Option ℚ) (fah : Bool) (out : List Char) : ℚ :=
  (readableTemps read fah (diskNames out)).sum /
    ((readableTemps read fah (diskNames out)).length : ℚ)

/-- Length of the leading run of value `v`, as consumed by one greedy
regex piece of `read_key` such as `1+` or `0+`. -/
def countRun (v : Bool) (s : List Bool) : ℕ :=
  (s.takeWhile (fun x => x == v)).length

/-- The window with its leading run of value `v` removed. -/
def dropRun (v : Bool) (s : List Bool) : List Bool :=
  s.dropWhile (fun x => x == v)

/-- Embeds `re.match` of the `'click'` pattern `1+0+1{wait,}` from
`watch_key`: a prefix of the window is one-or-more high samples, then
one-or-more low samples, then at least `wait` high samples, where
`wait = int(conf['time']['twice'] * 10)`. Each `+` piece over a single
character matches iff the corresponding maximal run is long enough. -/
def matchClick (wait : ℕ) (s : List Bool) : Bool :=
  decide (1 ≤ countRun true s) &&
  decide (1 ≤ countRun false (dropRun true s)) &&
  decide (wait ≤ countRun true (dropRun false (dropRun true s)))

/-- Embeds `re.match` of the `'twice'` pattern `1+0+1+0+1{3,}`. -/
def matchTwice (s : List Bool) : Bool :=
  let s1 := dropRun true s
  let s2 := dropRun false s1
  let s3 := dropRun true s2
  decide (1 ≤ countRun true s) &&
  decide (1 ≤ countRun false s1) &&
  decide (1 ≤ countRun true s2) &&
  decide (1 ≤ countRun false s3) &&
  decide (3 ≤ countRun true (dropRun false s3))

/-- Embeds `re.match` of the `'press'` pattern `1+0{size,}`, where
`size = int(conf['time']['press'] * 10)`. -/
def matchPress (size : ℕ) (s : List Bool) : Bool :=
  decide (1 ≤ countRun true s) &&
  decide (size ≤ countRun false (dropRun true s))

/-- Embeds the pattern dictionary iteration of `read_key`: the three
patterns are tried in the insertion order of the dict built in
`watch_key` — click, twice, press — and the first match is returned. -/
def read_key (wait size : ℕ) (s : List Bool) : Option String :=
  if matchClick wait s then some "click"
  else if matchTwice s then some "twice"
  else if matchPress size s then some "press"
  else none

/-- Embeds the window update `s = s[-size:] + str(pin11.read())` of
`read_key`: keep the last `size` samples and append the new one. -/
def windowStep (size : ℕ) (s : List Bool) (b : Bool) : List Bool :=
  (s.drop (s.length - size)) ++ [b]

/-- Stated from the claim sentence for comparison: the window contains a
run of active samples, then a run of idle samples, then an idle run of at
least `wait` samples (active = high = `'1'`, idle = low = `'0'`, the
encoding the spec test vectors use). -/
def specClick (wait : ℕ) (s : List Bool) : Prop :=
  ∃ (front : List Bool) (a b c : ℕ) (rest : List Bool),
    s = front ++ List.replicate a true ++ List.replicate b false ++
        List.replicate c false ++ rest ∧ 1 ≤ a ∧ 1 ≤ b ∧ wait ≤ c

/-- The stepped scan written with `List.find?`: duty of the first level in
`lv2dc` order whose threshold the temperature meets, default 10. -/
def firstMetDuty (c : FanConf) (temp : ℚ) : ℚ :=
  ((lv2dc.find? (fun p => decide (lvThreshold c p.1 ≤ temp))).map Prod.snd).getD 10

theorem scanLevels_eq_find (c : FanConf) (temp : ℚ) (l : List (String × ℚ)) :
    scanLevels c temp l = (l.find? (fun p => decide (lvThreshold c p.1 ≤ temp))).map Prod.snd := by
  induction l with
  | nil => rfl
  | cons hd tl ih =>
      obtain ⟨lv, dc⟩ := hd
      by_cases h : lvThreshold c lv ≤ temp
      · simp [scanLevels, h, List.find?_cons]
      · simp [scanLevels, h, List.find?_cons, ih]

/-- C5: in stepped mode, with thresholds ordered lv0 ≤ lv1 ≤ lv2 ≤ lv3, a
temperature strictly below lv0 yields the fallthrough duty 10, a
temperature at or above lv3 yields duty 100, and in general the duty is
that of the first level, scanned from lv3 down to lv0, whose threshold
the temperature meets or exceeds. -/
theorem stepped_mode_scan (c : FanConf) (temp : ℚ)
    (hmode : c.linear = false)
    (h01 : c.lv0 ≤ c.lv1) (h12 : c.lv1 ≤ c.lv2) (h23 : c.lv2 ≤ c.lv3) :
    (temp < c.lv0 → fan_temp2dc c temp = 10) ∧
    (c.lv3 ≤ temp → fan_temp2dc c temp = 100) ∧
    fan_temp2dc c temp = firstMetDuty c temp := by
  have hbody : fan_temp2dc c temp = (scanLevels c temp lv2dc).getD 10 := by
    simp [fan_temp2dc, hmode]
  refine ⟨?_, ?_, ?_⟩
  · intro hlow
    have n0 : ¬ c.lv0 ≤ temp := not_le.mpr hlow
    have n1 : ¬ c.lv1 ≤ temp := not_le.mpr (lt_of_lt_of_le hlow h01)
    have n2 : ¬ c.lv2 ≤ temp := not_le.mpr (lt_of_lt_of_le hlow (h01.trans h12))
    have n3 : ¬ c.lv3 ≤ temp := not_le.mpr (lt_of_lt_of_le hlow ((h01.trans h12).trans h23))
    rw [hbody]
    simp [lv2dc, scanLevels, lvThreshold, n0, n1, n2, n3]
  · intro hhigh
    rw [hbody]
    simp [lv2dc, scanLevels, lvThreshold, hhigh]
  · rw [hbody, firstMetDuty, scanLevels_eq_find]

/-- Witness for `stepped_mode_scan` at the default configuration and 30 °C. -/
theorem stepped_mode_scan_witness :
    (30 : ℚ) < defaultFanConf.lv0 ∧ fan_temp2dc defaultFanConf 30 = 10 := by
  have h := stepped_mode_scan defaultFanConf 30 (by decide) (by decide) (by decide) (by decide)
  exact ⟨by decide, h.1 (by decide)⟩

/-- C6: in linear mode with lv0 threshold strictly below lv3 threshold,
the duty percentage is monotonically non-decreasing in temperature,
equals the lv0 duty 25 strictly below the lv0 threshold, and equals the
lv3 duty 100 strictly above the lv3 threshold. -/
theorem linear_mode_curve (c : FanConf)
    (hmode : c.linear = true) (hlt : c.lv0 < c.lv3) :
    (∀ t1 t2 : ℚ, t1 ≤ t2 → fan_temp2dc c t1 ≤ fan_temp2dc c t2) ∧
    (∀ t : ℚ, t < c.lv0 → fan_temp2dc c t = 25) ∧
    (∀ t : ℚ, c.lv3 < t → fan_temp2dc c t = 100) := by
  have hd : (0 : ℚ) < c.lv3 - c.lv0 := sub_pos.mpr hlt
  have hbody : ∀ t : ℚ, fan_temp2dc c t =
      min 100 (max ((100 - 25) / (c.lv3 - c.lv0) * (t - c.lv0) + 25) 25) := by
    intro t
    simp [fan_temp2dc, hmode, hd]
  have hslope : (0 : ℚ) < (100 - 25) / (c.lv3 - c.lv0) := by positivity
  refine ⟨?_, ?_, ?_⟩
  · intro t1 t2 ht
    rw [hbody t1, hbody t2]
    have : (100 - 25) / (c.lv3 - c.lv0) * (t1 - c.lv0) + 25 ≤
        (100 - 25) / (c.lv3 - c.lv0) * (t2 - c.lv0) + 25 := by
      have := mul_le_mul_of_nonneg_left (sub_le_sub_right ht c.lv0) (le_of_lt hslope)
      linarith
    exact min_le_min le_rfl (max_le_max this le_rfl)
  · intro t ht
    rw [hbody t]
    have hneg : (100 - 25) / (c.lv3 - c.lv0) * (t - c.lv0) < 0 :=
      mul_neg_of_pos_of_neg hslope (sub_neg.mpr ht)
    have : max ((100 - 25) / (c.lv3 - c.lv0) * (t - c.lv0) + 25) 25 = 25 :=
      max_eq_right (by linarith)
    rw [this]
    exact min_eq_right (by norm_num)
  · intro t ht
    rw [hbody t]
    have hmul : (100 - 25) / (c.lv3 - c.lv0) * (c.lv3 - c.lv0) = 100 - 25 :=
      div_mul_cancel₀ _ (ne_of_gt hd)
    have hge : 100 ≤ (100 - 25) / (c.lv3 - c.lv0) * (t - c.lv0) + 25 := by
      have hstep : (100 - 25) / (c.lv3 - c.lv0) * (c.lv3 - c.lv0) ≤
          (100 - 25) / (c.lv3 - c.lv0) * (t - c.lv0) :=
        mul_le_mul_of_nonneg_left (by linarith) (le_of_lt hslope)
      linarith
    exact min_eq_left (le_trans hge (le_max_left _ _))

/-- Witness for `linear_mode_curve` at the default thresholds with the
linear flag on. -/
theorem linear_mode_curve_witness :
    fan_temp2dc ⟨35, 40, 45, 50, true⟩ 30 = 25 ∧ fan_temp2dc ⟨35, 40, 45, 50, true⟩ 60 = 100 := by
  have h := linear_mode_curve ⟨35, 40, 45, 50, true⟩ rfl (by decide)
  exact ⟨h.2.1 30 (by decide), h.2.2 60 (by decide)⟩

/-- C8 counterexample: with the disk-inclusion flag off and a CPU reading
of −5 °C the effective temperature is 0, not the CPU reading alone. -/
theorem effective_temp_not_cpu_alone :
    read_cpu_temp false false (-5) 3 = 0 ∧ ((0 : ℚ) ≠ -5) := by
  constructor
  · simp [read_cpu_temp, temp_convert]
  · norm_num

/-- C8 amended: the effective temperature is max(CPU reading, stored disk
average) when the disk-inclusion flag is set, and max(CPU reading, 0) when
it is not — the code always takes a max with the disk term, which is 0.0
when disks are excluded, so negative CPU readings are floored at 0. -/
theorem effective_temp_max (fah : Bool) (t d : ℚ) :
    read_cpu_temp fah true t d = max (temp_convert fah t) d ∧
    read_cpu_temp fah false t d = max (temp_convert fah t) 0 := by
  constructor <;> simp [read_cpu_temp]

theorem fan_temp2dc_bounds (c : FanConf) (temp : ℚ) :
    10 ≤ fan_temp2dc c temp ∧ fan_temp2dc c temp ≤ 100 := by
  by_cases h : c.linear = true
  · constructor
    · simp only [fan_temp2dc, h, if_true]
      exact le_min (by norm_num) (le_trans (by norm_num) (le_max_right _ _))
    · simp only [fan_temp2dc, h, if_true]
      exact min_le_left _ _
  · have h' : c.linear = false := by
      cases hc : c.linear
      · rfl
      · exact absurd hc h
    have hbody : fan_temp2dc c temp = (scanLevels c temp lv2dc).getD 10 := by
      simp [fan_temp2dc, h']
    rw [hbody]
    simp only [lv2dc, scanLevels, lvThreshold]
    split_ifs <;> norm_num

/-- C9: for every wall-clock instant, configuration, fan-enabled state and
temperature, the duty fraction written to the PWM actuator lies in
[0, 0.999]: enabled duty percentages stay within [10, 100] so the written
off-ratio is within [0, 0.9], and the disabled path writes exactly 0.999. -/
theorem duty_always_in_range (clock : ℚ) (c : FanConf) (running : Bool) (temp : ℚ) :
    0 ≤ dutyAt clock c running temp ∧ dutyAt clock c running temp ≤ 999 / 1000 := by
  cases running with
  | false =>
      constructor <;> norm_num [dutyAt, get_dc, change_dc_value]
  | true =>
      have hb := fan_temp2dc_bounds c temp
      have hval : dutyAt clock c true temp = 1 - fan_temp2dc c temp / 100 := by
        simp [dutyAt, get_dc, change_dc_value]
      constructor
      · rw [hval]; nlinarith [hb.2]
      · rw [hval]; nlinarith [hb.1]

/-- C1 counterexample: 23:00 lies inside the quiet window 22:00–10:00,
yet at 60 °C with the default (stepped) configuration the written duty is
0, far below 1 − 0.4 = 0.6 — the source has no quiet-hours clamp. -/
theorem quiet_hours_clamp_counterexample :
    in_quiet_window 22 10 23 = true ∧
    dutyAt 23 defaultFanConf true 60 = 0 ∧
    ¬ ((1 - 2 / 5 : ℚ) ≤ dutyAt 23 defaultFanConf true 60) := by
  have hduty : dutyAt 23 defaultFanConf true 60 = 0 := by
    simp [dutyAt, get_dc, fan_temp2dc, defaultFanConf, lv2dc, scanLevels, lvThreshold,
      change_dc_value]
    norm_num
  refine ⟨by decide, hduty, ?_⟩
  rw [hduty]
  norm_num

/-- C1 amended: the duty computation never reads the wall clock, so no
quiet-hours clamp exists; at any instant inside the 22:00–10:00 window a
temperature at or above the lv3 threshold still drives the written duty
to 0, below 1 − 0.4, and the duty is identical at every other instant. -/
theorem no_quiet_hours_clamp (clock : ℚ) (c : FanConf) (temp : ℚ)
    (_hw : in_quiet_window 22 10 clock = true)
    (hmode : c.linear = false) (ht : c.lv3 ≤ temp) :
    dutyAt clock c true temp = 0 ∧
    dutyAt clock c true temp < 1 - 2 / 5 ∧
    ∀ clock2 : ℚ, dutyAt clock2 c true temp = dutyAt clock c true temp := by
  have h100 : fan_temp2dc c temp = 100 := by
    simp [fan_temp2dc, hmode, lv2dc, scanLevels, lvThreshold, ht]
  have hduty : dutyAt clock c true temp = 0 := by
    simp [dutyAt, get_dc, change_dc_value, h100]
  refine ⟨hduty, by rw [hduty]; norm_num, fun clock2 => rfl⟩

/-- Witness for `no_quiet_hours_clamp` at 23:00, default config, 60 °C. -/
theorem no_quiet_hours_clamp_witness :
    dutyAt 23 defaultFanConf true 60 = 0 :=
  (no_quiet_hours_clamp 23 defaultFanConf 60 (by decide) rfl (by decide)).1

/-- C2 counterexample: with a stored baseline at t = 10 and a new sample
at t = 8 (elapsed −2 ≤ 0), the interface rate computation does not
discard the sample: it reports −1 MB/s and replaces the baseline with the
new sample. -/
theorem io_rate_negative_elapsed_counterexample :
    get_interface_io_rate (some ⟨0, 0, 10⟩) ⟨2097152, 0, 8⟩ =
      Except.ok (⟨-1, 0⟩, ⟨2097152, 0, 8⟩) ∧
    ((⟨2097152, 0, 8⟩ : IoSample) ≠ ⟨0, 0, 10⟩) ∧
    ((8 : ℚ) - 10 ≤ 0) := by
  refine ⟨?_, by decide, by norm_num⟩
  simp only [get_interface_io_rate]
  norm_num

/-- C2 amended: the rate computations have no guard on non-positive
elapsed time — a zero elapsed time raises a division error (no rate, no
baseline update), while any non-zero elapsed time, negative included,
yields a computed rate and replaces the baseline with the new sample. -/
theorem io_rate_no_elapsed_guard (o z n : IoSample) (s : ℚ)
    (hz : z.time = o.time) (hn : n.time ≠ o.time) :
    get_interface_io_rate (some o) z = Except.error () ∧
    get_disk_io_rate s (some o) z = Except.error () ∧
    (∃ r : IoRate, get_interface_io_rate (some o) n = Except.ok (r, n)) ∧
    (∃ r : IoRate, get_disk_io_rate s (some o) n = Except.ok (r, n)) := by
  have hz0 : z.time - o.time = 0 := by rw [hz]; ring
  have hn0 : ¬ (n.time - o.time = 0) := sub_ne_zero.mpr hn
  refine ⟨?_, ?_, ?_, ?_⟩
  · simp [get_interface_io_rate, hz0]
  · simp [get_disk_io_rate, hz0]
  · exact ⟨⟨(n.rx - o.rx) / (n.time - o.time) / 1024 / 1024,
      (n.tx - o.tx) / (n.time - o.time) / 1024 / 1024⟩, by simp [get_interface_io_rate, hn0]⟩
  · exact ⟨⟨(n.rx - o.rx) / (n.time - o.time) / (1024 / s) / 1024,
      (n.tx - o.tx) / (n.time - o.time) / (1024 / s) / 1024⟩, by simp [get_disk_io_rate, hn0]⟩

/-- Witness for `io_rate_no_elapsed_guard` with baselines at t = 10, a
zero-elapsed sample and a t = 8 sample. -/
theorem io_rate_no_elapsed_guard_witness :
    get_interface_io_rate (some ⟨0, 0, 10⟩) ⟨1, 1, 10⟩ = Except.error () :=
  (io_rate_no_elapsed_guard ⟨0, 0, 10⟩ ⟨1, 1, 10⟩ ⟨2097152, 0, 8⟩ 512 rfl (by decide)).1

/-- C3 counterexample: the spec example — counters 110 MB then 100 MB,
5 s apart — reports −2 MB/s, not the claimed clamp to 0 (the baseline is
indeed replaced). -/
theorem io_rate_counter_reset_counterexample :
    get_interface_io_rate (some ⟨115343360, 0, 0⟩) ⟨104857600, 0, 5⟩ =
      Except.ok (⟨-2, 0⟩, ⟨104857600, 0, 5⟩) ∧
    ((-2 : ℚ) < 0) ∧ ((-2 : ℚ) ≠ 0) := by
  refine ⟨?_, by norm_num, by norm_num⟩
  simp only [get_interface_io_rate]
  norm_num

/-- C3 amended: on a counter decrease with positive elapsed time the new
sample does become the fresh baseline, but the reported receive rate is
the negative scaled delta, not 0. -/
theorem io_rate_counter_reset_negative (o n : IoSample) (s : ℚ)
    (ht : o.time < n.time) (hc : n.rx < o.rx) (hs : 0 < s) :
    (∃ r : IoRate, get_interface_io_rate (some o) n = Except.ok (r, n) ∧ r.rx < 0) ∧
    (∃ r : IoRate, get_disk_io_rate s (some o) n = Except.ok (r, n) ∧ r.rx < 0) := by
  have hd : (0 : ℚ) < n.time - o.time := sub_pos.mpr ht
  have hd0 : ¬ (n.time - o.time = 0) := ne_of_gt hd
  have ha : n.rx - o.rx < 0 := sub_neg.mpr hc
  constructor
  · refine ⟨⟨(n.rx - o.rx) / (n.time - o.time) / 1024 / 1024,
      (n.tx - o.tx) / (n.time - o.time) / 1024 / 1024⟩, ?_, ?_⟩
    · simp [get_interface_io_rate, hd0]
    · exact div_neg_of_neg_of_pos
        (div_neg_of_neg_of_pos (div_neg_of_neg_of_pos ha hd) (by norm_num)) (by norm_num)
  · have hsec : (0 : ℚ) < 1024 / s := div_pos (by norm_num) hs
    refine ⟨⟨(n.rx - o.rx) / (n.time - o.time) / (1024 / s) / 1024,
      (n.tx - o.tx) / (n.time - o.time) / (1024 / s) / 1024⟩, ?_, ?_⟩
    · simp [get_disk_io_rate, hd0]
    · exact div_neg_of_neg_of_pos
        (div_neg_of_neg_of_pos (div_neg_of_neg_of_pos ha hd) hsec) (by norm_num)

/-- Witness for `io_rate_counter_reset_negative` at the spec example
samples and a 512-byte sector size. -/
theorem io_rate_counter_reset_negative_witness :
    ∃ r : IoRate, get_interface_io_rate (some ⟨115343360, 0, 0⟩) ⟨104857600, 0, 5⟩ =
      Except.ok (r, ⟨104857600, 0, 5⟩) ∧ r.rx < 0 :=
  (io_rate_counter_reset_negative ⟨115343360, 0, 0⟩ ⟨104857600, 0, 5⟩ 512
    (by decide) (by decide) (by decide)).1

/-- Concrete `lsblk` output "sda\nsdb" used for the C4 counterexample. -/
def exLsblkOut : List Char := ['s', 'd', 'a', '\n', 's', 'd', 'b']

/-- Concrete `smartctl` oracle for the C4 counterexample: sda reads 40 °C,
every other disk is unreadable. -/
def exSmartRead : List Char → Option ℚ :=
  fun d => if d = ['s', 'd', 'a'] then some 40 else none

/-- C4 counterexample: with disks sda (40 °C) and sdb (unreadable), the
stored average is 40 / 2 = 20 — the unreadable disk is excluded from the
sum but still counted in the divisor — while the claimed
readable-sources-only average is 40. -/
theorem disk_average_counterexample :
    disk_temp_average exSmartRead false exLsblkOut = 20 ∧
    spec_readable_average exSmartRead false exLsblkOut = 40 ∧
    ((20 : ℚ) ≠ 40) := by
  have hnames : diskNames exLsblkOut = [['s', 'd', 'a'], ['s', 'd', 'b']] := by decide
  have hra : exSmartRead ['s', 'd', 'a'] = some 40 := by decide
  have hrb : exSmartRead ['s', 'd', 'b'] = none := by decide
  have hinfo : get_disk_temp_info exSmartRead false [['s', 'd', 'a'], ['s', 'd', 'b']] =
      (0 + 40, [(['s', 'd', 'a'], DiskEntry.temp 40), (['s', 'd', 'b'], DiskEntry.unreadable)]) :=
    rfl
  refine ⟨?_, ?_, by norm_num⟩
  · rw [disk_temp_average, diskTempCount, hnames, hinfo]
    norm_num
  · simp only [spec_readable_average, readableTemps, hnames, List.filterMap_cons,
      List.filterMap_nil, hra, hrb, temp_convert, Option.map_some', Option.map_none',
      show (['s', 'd', 'a'] : List Char) ≠ [] from by decide,
      show (['s', 'd', 'b'] : List Char) ≠ [] from by decide]
    norm_num

theorem get_disk_temp_info_sum (read : List Char → Option ℚ) (fah : Bool) :
    ∀ (l : List (List Char)) (s : ℚ) (m : List (List Char × DiskEntry)),
      (l.foldl (diskTempStep read fah) (s, m)).1 = s + (readableTemps read fah l).sum := by
  intro l
  induction l with
  | nil => intro s m; simp [readableTemps]
  | cons d tl ih =>
      intro s m
      by_cases hd : d = []
      · subst hd
        simp only [List.foldl_cons, diskTempStep, readableTemps, List.filterMap_cons]
        simp [ih, readableTemps]
      · cases hr : read d with
        | none =>
            simp only [List.foldl_cons, diskTempStep, hd, if_pos, readableTemps,
              List.filterMap_cons, hr]
            simp [hd, hr, ih, readableTemps]
        | some t =>
            simp only [List.foldl_cons, diskTempStep, readableTemps, List.filterMap_cons]
            simp only [hd, hr, ite_not]
            simp [ih, readableTemps]
            ring

/-- C4 amended: the aggregate disk-temperature average equals the sum of
the readable temperatures divided by the number of entries of the
readings map, which counts every processed disk name — unreadable disks
and the empty-name entry contribute 0 to the sum but are counted in the
divisor. -/
theorem disk_average_divisor (read : List Char → Option ℚ) (fah : Bool) (out : List Char) :
    disk_temp_average read fah out =
      (readableTemps read fah (diskNames out)).sum / (diskTempCount read fah out : ℚ) := by
  unfold disk_temp_average
  rw [show (get_disk_temp_info read fah (diskNames out)).1 =
      (readableTemps read fah (diskNames out)).sum by
    rw [get_disk_temp_info, get_disk_temp_info_sum read fah (diskNames out) 0 []]
    ring]

theorem dictInsert_length_pos (m : List (List Char × DiskEntry)) (k : List Char)
    (v : DiskEntry) : 0 < (dictInsert m k v).length := by
  cases m with
  | nil => simp [dictInsert]
  | cons p ps =>
      unfold dictInsert
      split
      · simp
      · simp

theorem diskTempStep_length_pos (read : List Char → Option ℚ) (fah : Bool)
    (acc : ℚ × List (List Char × DiskEntry)) (d : List Char) :
    0 < ((diskTempStep read fah acc d).2).length := by
  unfold diskTempStep
  by_cases hd : d = []
  · simp only [hd]
    simpa using dictInsert_length_pos acc.2 [] DiskEntry.blank
  · cases hr : read d with
    | none => simp only [hd, hr]; simpa [hd] using dictInsert_length_pos acc.2 d DiskEntry.unreadable
    | some t => simp only [hd, hr]; simpa [hd] using dictInsert_length_pos acc.2 d (DiskEntry.temp (temp_convert fah t))

theorem diskTempStep_length_mono (read : List Char → Option ℚ) (fah : Bool)
    (acc : ℚ × List (List Char × DiskEntry)) (d : List Char) :
    acc.2.length ≤ ((diskTempStep read fah acc d).2).length := by
  have hins : ∀ (m : List (List Char × DiskEntry)) (k : List Char) (v : DiskEntry),
      m.length ≤ (dictInsert m k v).length := by
    intro m k v
    unfold dictInsert
    split
    · simp
    · simp
  unfold diskTempStep
  by_cases hd : d = []
  · simpa [hd] using hins acc.2 [] DiskEntry.blank
  · cases hr : read d with
    | none => simpa [hd, hr] using hins acc.2 d DiskEntry.unreadable
    | some t => simpa [hd, hr] using hins acc.2 d (DiskEntry.temp (temp_convert fah t))

theorem foldl_diskTempStep_length_mono (read : List Char → Option ℚ) (fah : Bool) :
    ∀ (l : List (List Char)) (acc : ℚ × List (List Char × DiskEntry)),
      acc.2.length ≤ ((l.foldl (diskTempStep read fah) acc).2).length := by
  intro l
  induction l with
  | nil => intro acc; simp
  | cons d tl ih =>
      intro acc
      exact le_trans (diskTempStep_length_mono read fah acc d) (ih _)

theorem splitLines_ne_nil (s : List Char) : splitLines s ≠ [] := by
  cases s with
  | nil => simp [splitLines]
  | cons c rest =>
      unfold splitLines
      split
      · simp
      · cases h : splitLines rest <;> simp

theorem insertSorted_length (x : List Char) (l : List (List Char)) :
    (insertSorted x l).length = l.length + 1 := by
  induction l with
  | nil => rfl
  | cons y ys ih =>
      unfold insertSorted
      split
      · simp
      · simp [ih]

theorem sortNames_length (l : List (List Char)) : (sortNames l).length = l.length := by
  unfold sortNames
  induction l with
  | nil => rfl
  | cons x xs ih => simp [List.foldr_cons, insertSorted_length, ih]

/-- C10: the divisor of the disk-temperature average is always positive —
splitting any `lsblk` output yields at least one (possibly empty) name
and every loop iteration keeps the readings map non-empty — and on a
system with no sd drives the map is exactly the empty-name sentinel
entry. -/
theorem disk_temp_divisor_positive (read : List Char → Option ℚ) (fah : Bool)
    (out : List Char) :
    0 < diskTempCount read fah out ∧
    (get_disk_temp_info read fah (diskNames [])).2 = [([], DiskEntry.blank)] := by
  constructor
  · unfold diskTempCount get_disk_temp_info
    have hne : diskNames out ≠ [] := by
      intro h
      have := sortNames_length (splitLines out)
      rw [show sortNames (splitLines out) = diskNames out from rfl, h] at this
      exact splitLines_ne_nil out (List.length_eq_zero.mp this.symm)
    obtain ⟨d, rest, hdr⟩ := List.exists_cons_of_ne_nil hne
    rw [hdr, List.foldl_cons]
    exact lt_of_lt_of_le (diskTempStep_length_pos read fah (0, []) d)
      (foldl_diskTempStep_length_mono read fah rest _)
  · rfl

theorem takeWhile_eq_replicate_countRun (v : Bool) (s : List Bool) :
    s.takeWhile (fun x => x == v) = List.replicate (countRun v s) v := by
  induction s with
  | nil => rfl
  | cons x xs ih =>
      cases hxv : (x == v) with
      | true =>
          have hx : x = v := eq_of_beq hxv
          subst hx
          simp only [countRun, List.takeWhile_cons, beq_self_eq_true, if_true,
            List.length_cons, List.replicate_succ]
          exact congrArg (x :: ·) ih
      | false =>
          simp [countRun, List.takeWhile_cons, hxv]

theorem replicate_countRun_append_dropRun (v : Bool) (s : List Bool) :
    s = List.replicate (countRun v s) v ++ dropRun v s := by
  conv_lhs => rw [← List.takeWhile_append_dropWhile (p := fun x => x == v) (l := s)]
  rw [takeWhile_eq_replicate_countRun]
  rfl

theorem countRun_cons (v x : Bool) (xs : List Bool) :
    countRun v (x :: xs) = if x == v then countRun v xs + 1 else 0 := by
  simp only [countRun, List.takeWhile_cons]
  split <;> simp

theorem countRun_replicate_append (v : Bool) (n : ℕ) (t : List Bool) :
    countRun v (List.replicate n v ++ t) = n + countRun v t := by
  induction n with
  | zero => simp
  | succ k ih =>
      simp only [List.replicate_succ, List.cons_append, countRun_cons, beq_self_eq_true,
        if_true, ih]
      omega

theorem dropRun_cons_other (v x : Bool) (xs : List Bool) (h : (x == v) = false) :
    dropRun v (x :: xs) = x :: xs := by
  simp [dropRun, List.dropWhile_cons, h]

theorem dropRun_replicate_append (v : Bool) (n : ℕ) (t : List Bool) :
    dropRun v (List.replicate n v ++ t) = dropRun v t := by
  induction n with
  | zero => simp
  | succ k ih =>
      simp only [List.replicate_succ, List.cons_append, dropRun, List.dropWhile_cons,
        beq_self_eq_true, if_true]
      exact ih

theorem matchClick_iff (wait : ℕ) (s : List Bool) :
    matchClick wait s = true ↔
      ∃ (a b c : ℕ) (rest : List Bool),
        s = List.replicate a true ++ List.replicate b false ++ List.replicate c true ++ rest ∧
        1 ≤ a ∧ 1 ≤ b ∧ wait ≤ c := by
  constructor
  · intro h
    simp only [matchClick, Bool.and_eq_true, decide_eq_true_eq] at h
    obtain ⟨⟨ha, hb⟩, hc⟩ := h
    have h1 := replicate_countRun_append_dropRun true s
    have h2 := replicate_countRun_append_dropRun false (dropRun true s)
    have h3 := replicate_countRun_append_dropRun true (dropRun false (dropRun true s))
    refine ⟨countRun true s, countRun false (dropRun true s),
      countRun true (dropRun false (dropRun true s)),
      dropRun true (dropRun false (dropRun true s)), ?_, ha, hb, hc⟩
    have key : s = List.replicate (countRun true s) true ++
        (List.replicate (countRun false (dropRun true s)) false ++
          (List.replicate (countRun true (dropRun false (dropRun true s))) true ++
            dropRun true (dropRun false (dropRun true s)))) := by
      rw [← h3, ← h2, ← h1]
    simpa [List.append_assoc] using key
  · rintro ⟨a, b, c, rest, hs, ha, hb, hc⟩
    subst hs
    simp only [matchClick, Bool.and_eq_true, decide_eq_true_eq]
    obtain ⟨a1, rfl⟩ : ∃ a1, a = a1 + 1 := ⟨a - 1, by omega⟩
    obtain ⟨b1, rfl⟩ : ∃ b1, b = b1 + 1 := ⟨b - 1, by omega⟩
    have hassoc : (List.replicate (a1 + 1) true ++ List.replicate (b1 + 1) false ++
        List.replicate c true ++ rest) = List.replicate (a1 + 1) true ++
        (List.replicate (b1 + 1) false ++ (List.replicate c true ++ rest)) := by
      simp [List.append_assoc]
    rw [hassoc]
    have hz : countRun true (List.replicate (b1 + 1) false ++
        (List.replicate c true ++ rest)) = 0 := by
      simp [List.replicate_succ, countRun_cons]
    have hdrop1 : dropRun true (List.replicate (a1 + 1) true ++
        (List.replicate (b1 + 1) false ++ (List.replicate c true ++ rest))) =
        List.replicate (b1 + 1) false ++ (List.replicate c true ++ rest) := by
      rw [dropRun_replicate_append]
      simp only [List.replicate_succ, List.cons_append]
      exact dropRun_cons_other true false _ (by simp)
    refine ⟨⟨?_, ?_⟩, ?_⟩
    · rw [countRun_replicate_append, hz]; omega
    · rw [hdrop1, countRun_replicate_append]; omega
    · rw [hdrop1]
      have hdrop2 : dropRun false (List.replicate (b1 + 1) false ++
          (List.replicate c true ++ rest)) = dropRun false (List.replicate c true ++ rest) :=
        dropRun_replicate_append false (b1 + 1) _
      rw [hdrop2]
      cases c with
      | zero => omega
      | succ c1 =>
          have : dropRun false (List.replicate (c1 + 1) true ++ rest) =
              List.replicate (c1 + 1) true ++ rest := by
            simp only [List.replicate_succ, List.cons_append]
            exact dropRun_cons_other false true _ (by simp)
          rw [this, countRun_replicate_append]
          omega

/-- C7 counterexample: the window 1,0,1×7 (one active sample, one idle
sample, then seven active samples) makes the recognizer emit Click with
the default wait = 7, yet it contains no idle run of at least wait
samples — only a single idle sample — so the claimed characterization of
Click does not hold. -/
theorem click_pattern_counterexample :
    read_key 7 18 (true :: false :: List.replicate 7 true) = some "click" ∧
    ¬ specClick 7 (true :: false :: List.replicate 7 true) := by
  constructor
  · decide
  · rintro ⟨front, a, b, c, rest, heq, ha, hb, hc⟩
    have hcnt := congrArg (fun l => List.count false l) heq
    have hw : List.count false (true :: false :: List.replicate 7 true) = 1 := by decide
    simp only [hw, List.count_append, List.count_replicate, List.count_cons] at hcnt
    simp at hcnt
    omega

/-- C7 amended: the recognizer emits Click exactly when the window is one
run of at least one active sample, one run of at least one idle sample,
then at least `wait` further ACTIVE samples (`wait` = twice-threshold × 10)
— the settle run the pattern requires is at the active level, not idle —
and the patterns are evaluated in the fixed priority order Click,
DoubleClick, LongPress, the first match winning. -/
theorem read_key_click_iff (wait size : ℕ) (s : List Bool) :
    (read_key wait size s = some "click" ↔
      ∃ (a b c : ℕ) (rest : List Bool),
        s = List.replicate a true ++ List.replicate b false ++ List.replicate c true ++ rest ∧
        1 ≤ a ∧ 1 ≤ b ∧ wait ≤ c) ∧
    (matchClick wait s = false → matchTwice s = true →
      read_key wait size s = some "twice") ∧
    (matchClick wait s = false → matchTwice s = false → matchPress size s = true →
      read_key wait size s = some "press") := by
  refine ⟨?_, ?_, ?_⟩
  · rw [← matchClick_iff]
    by_cases h1 : matchClick wait s
    · simp [read_key, h1]
    · by_cases h2 : matchTwice s
      · simp [read_key, h1, h2, show ("twice" : String) ≠ "click" from by decide]
      · by_cases h3 : matchPress size s
        · simp [read_key, h1, h2, h3, show ("press" : String) ≠ "click" from by decide]
        · simp [read_key, h1, h2, h3]
  · intro h1 h2
    simp [read_key, h1, h2]
  · intro h1 h2 h3
    simp [read_key, h1, h2, h3]
